import Mathlib

/-!
# Shallow embedding of the CHIP-8 core (src/src/chip8.c, src/src/main.c)

Machine integers are modelled as `Nat` with explicit truncation (`% 256` for
`uint8`, `% 65536` for `uint16`) exactly where the C code's fixed-width
arithmetic can overflow.  Arrays (`memory`, `V`, `stack`, `display`) are
modelled as total functions out of `Nat`; every access the C code performs on
them is bounds-guarded in the source (or the index is produced by a 4-bit
decode mask), so a total function is a faithful model.  The single exception
is the `keys[16]` array: `handle_exxx` indexes it with the raw register value
`V[x]` (0..255) with no mask and no guard, so the keypad is modelled as
`Fin 16 → Bool` and `handle_exxx` returns `Option` — `none` marks the
out-of-bounds (undefined-behaviour) access.  `rand()` is modelled by threading
an oracle byte into each cycle.
-/

/-- Execution status, mirroring `chip8_state_t` in include/chip8.h. -/
inductive EmuState where
  | running
  | paused
  | stopped
  | error
deriving DecidableEq, Repr

/-- Decoded instruction, mirroring `chip8_instr_t` in include/chip8.h. -/
structure Instr where
  opcode : Nat
  nnn : Nat
  kk : Nat
  x : Nat
  y : Nat
  n : Nat
deriving DecidableEq, Repr

/-- Machine state, mirroring `chip8_t` in include/chip8.h.
`last_timer_ticks` (never read by chip8.c) and the host display
config are omitted; everything the interpreter core touches is here. -/
structure Chip8 where
  state : EmuState
  stack : Nat → Nat
  I : Nat
  pc : Nat
  sp : Nat
  delay_timer : Nat
  sound_timer : Nat
  V : Nat → Nat
  keys : Fin 16 → Bool
  display : Nat → Bool
  memory : Nat → Nat
  current_instr : Instr

/-- `decode_opcode` (chip8.c:29).  The C bit-masks are written as the
equivalent `%`/`/` arithmetic: `op & 0x0FFF = op % 4096`,
`op & 0x00FF = op % 256`, `(op >> 8) & 0x0F = op / 256 % 16`,
`(op >> 4) & 0x0F = op / 16 % 16`, `op & 0x000F = op % 16`. -/
def decode_opcode (op : Nat) : Instr :=
  { opcode := op
    nnn := op % 4096
    kk := op % 256
    x := op / 256 % 16
    y := op / 16 % 16
    n := op % 16 }

/-- `handle_cls` (chip8.c:50): clear the display, `pc += 2`. -/
def handle_cls (s : Chip8) (_i : Instr) : Chip8 :=
  { s with display := fun _ => false, pc := (s.pc + 2) % 65536 }

/-- `handle_ret` (chip8.c:62): if `sp > 0` then `sp--; pc = stack[sp]`
(no further increment); on underflow warn and `pc += 2`. -/
def handle_ret (s : Chip8) (_i : Instr) : Chip8 :=
  if s.sp > 0 then
    { s with sp := s.sp - 1, pc := s.stack (s.sp - 1) }
  else
    { s with pc := (s.pc + 2) % 65536 }

/-- `handle_0xxx` (chip8.c:82): sub-dispatch on the full opcode. -/
def handle_0xxx (s : Chip8) (i : Instr) : Chip8 :=
  match i.opcode with
  | 0x00E0 => handle_cls s i
  | 0x00EE => handle_ret s i
  | _ => { s with pc := (s.pc + 2) % 65536 }

/-- `handle_jp` (chip8.c:103): `pc = nnn`. -/
def handle_jp (s : Chip8) (i : Instr) : Chip8 :=
  { s with pc := i.nnn }

/-- `handle_call` (chip8.c:111): if `sp < 16` then
`stack[sp++] = pc; pc = nnn` (note: the C code pushes the *current* `pc`,
the address of the CALL itself — the program counter has not been advanced
at this point of the cycle); else warn and `state = CHIP8_STOPPED`. -/
def handle_call (s : Chip8) (i : Instr) : Chip8 :=
  if s.sp < 16 then
    { s with stack := Function.update s.stack s.sp s.pc
             sp := s.sp + 1
             pc := i.nnn }
  else
    { s with state := EmuState.stopped }

/-- `handle_se_vx_kk` (chip8.c:129): skip next if `V[x] == kk`. -/
def handle_se_vx_kk (s : Chip8) (i : Instr) : Chip8 :=
  if s.V i.x = i.kk then
    { s with pc := (s.pc + 4) % 65536 }
  else
    { s with pc := (s.pc + 2) % 65536 }

/-- `handle_sne_vx_kk` (chip8.c:140): skip next if `V[x] != kk`. -/
def handle_sne_vx_kk (s : Chip8) (i : Instr) : Chip8 :=
  if s.V i.x ≠ i.kk then
    { s with pc := (s.pc + 4) % 65536 }
  else
    { s with pc := (s.pc + 2) % 65536 }

/-- `handle_se_vx_vy` (chip8.c:151): skip next if `V[x] == V[y]`. -/
def handle_se_vx_vy (s : Chip8) (i : Instr) : Chip8 :=
  if s.V i.x = s.V i.y then
    { s with pc := (s.pc + 4) % 65536 }
  else
    { s with pc := (s.pc + 2) % 65536 }

/-- `handle_ld_vx_kk` (chip8.c:162): `V[x] = kk; pc += 2`. -/
def handle_ld_vx_kk (s : Chip8) (i : Instr) : Chip8 :=
  { s with V := Function.update s.V i.x i.kk, pc := (s.pc + 2) % 65536 }

/-- `handle_add_vx_kk` (chip8.c:171): `V[x] += kk` with `uint8` wrap-around. -/
def handle_add_vx_kk (s : Chip8) (i : Instr) : Chip8 :=
  { s with V := Function.update s.V i.x ((s.V i.x + i.kk) % 256)
           pc := (s.pc + 2) % 65536 }

/-- `handle_8xxx` (chip8.c:180): sub-dispatch on the low nibble, then
`pc += 2`.  The ALU cases write `V[0xF]` *first* and then store into
`V[x]`, exactly as the C statements do, so when `x == 0xF` the second
write clobbers the flag.  `uint8` subtraction `a - b` is written as
`(a + 256 - b) % 256` (the operands are byte values) and `a << 1` as
`a * 2 % 256`. -/
def handle_8xxx (s : Chip8) (i : Instr) : Chip8 :=
  let s' :=
    match i.n with
    | 0x0 => { s with V := Function.update s.V i.x (s.V i.y) }
    | 0x1 => { s with V := Function.update s.V i.x (Nat.lor (s.V i.x) (s.V i.y)) }
    | 0x2 => { s with V := Function.update s.V i.x (Nat.land (s.V i.x) (s.V i.y)) }
    | 0x3 => { s with V := Function.update s.V i.x (Nat.xor (s.V i.x) (s.V i.y)) }
    | 0x4 =>
      let sum := s.V i.x + s.V i.y
      let V1 := Function.update s.V 0xF (if sum > 0xFF then 1 else 0)
      { s with V := Function.update V1 i.x (sum % 256) }
    | 0x5 =>
      let V1 := Function.update s.V 0xF (if s.V i.x ≥ s.V i.y then 1 else 0)
      { s with V := Function.update V1 i.x ((V1 i.x + 256 - V1 i.y) % 256) }
    | 0x6 =>
      let V1 := Function.update s.V 0xF (Nat.land (s.V i.x) 0x1)
      { s with V := Function.update V1 i.x (V1 i.x / 2) }
    | 0x7 =>
      let V1 := Function.update s.V 0xF (if s.V i.y ≥ s.V i.x then 1 else 0)
      { s with V := Function.update V1 i.x ((V1 i.y + 256 - V1 i.x) % 256) }
    | 0xE =>
      let V1 := Function.update s.V 0xF (Nat.land (s.V i.x) 0x80 / 128)
      { s with V := Function.update V1 i.x (V1 i.x * 2 % 256) }
    | _ => s
  { s' with pc := (s'.pc + 2) % 65536 }

/-- `handle_sne_vx_vy` (chip8.c:238): skip next if `V[x] != V[y]`. -/
def handle_sne_vx_vy (s : Chip8) (i : Instr) : Chip8 :=
  if s.V i.x ≠ s.V i.y then
    { s with pc := (s.pc + 4) % 65536 }
  else
    { s with pc := (s.pc + 2) % 65536 }

/-- `handle_ld_i_nnn` (chip8.c:249): `I = nnn; pc += 2`. -/
def handle_ld_i_nnn (s : Chip8) (i : Instr) : Chip8 :=
  { s with I := i.nnn, pc := (s.pc + 2) % 65536 }

/-- `handle_jp_v0_nnn` (chip8.c:258): `pc = (V[0] + nnn) & 0xFFF`. -/
def handle_jp_v0_nnn (s : Chip8) (i : Instr) : Chip8 :=
  { s with pc := (s.V 0 + i.nnn) % 4096 }

/-- `handle_rnd_vx_kk` (chip8.c:266): `V[x] = (rand() & 0xFF) & kk`.
The host RNG is threaded in as the oracle `rnd`. -/
def handle_rnd_vx_kk (rnd : Nat) (s : Chip8) (i : Instr) : Chip8 :=
  { s with V := Function.update s.V i.x (Nat.land (rnd % 256) i.kk)
           pc := (s.pc + 2) % 65536 }

/-- Inner column loop of `handle_drw_vx_vy_n` (chip8.c:302-327): for each
column `c` in 0..7, extract bit `(byte >> (7-c)) & 1`, clip at the screen
edge, detect collision into the flag accumulator and XOR the pixel in. -/
def drw_row (byte x0 dy : Nat) (acc : (Nat → Bool) × Nat) : (Nat → Bool) × Nat :=
  (List.range 8).foldl
    (fun acc c =>
      let pixel := Nat.land (byte >>> (7 - c)) 1
      let dx := x0 + c
      if dx ≥ 64 ∨ dy ≥ 32 then acc
      else
        let idx := dy * 64 + dx
        let vf' := if acc.1 idx && (pixel == 1) then 1 else acc.2
        (Function.update acc.1 idx (xor (acc.1 idx) (pixel == 1)), vf'))
    acc

/-- Row loop of `handle_drw_vx_vy_n` (chip8.c:290-328): processes rows
`r, r+1, ...` while fuel lasts; a row with `I + r ≥ 4096` `break`s out
of the loop (all later rows are abandoned). -/
def drw_rows (mem : Nat → Nat) (I x0 y0 : Nat) :
    Nat → Nat → (Nat → Bool) × Nat → (Nat → Bool) × Nat
  | 0, _, acc => acc
  | k + 1, r, acc =>
    if I + r ≥ 4096 then acc
    else drw_rows mem I x0 y0 k (r + 1) (drw_row (mem (I + r)) x0 (y0 + r) acc)

/-- `handle_drw_vx_vy_n` (chip8.c:280): draw an 8×n sprite from
`memory[I]` at `(V[x] % 64, V[y] % 32)` by XOR, setting `V[0xF]` to 1 on
any set→unset collision (it is reset to 0 on entry); `pc += 2`. -/
def handle_drw_vx_vy_n (s : Chip8) (i : Instr) : Chip8 :=
  let x0 := s.V i.x % 64
  let y0 := s.V i.y % 32
  let res := drw_rows s.memory s.I x0 y0 i.n 0 (s.display, 0)
  { s with display := res.1
           V := Function.update s.V 0xF res.2
           pc := (s.pc + 2) % 65536 }

/-- `handle_exxx` (chip8.c:336): EX9E/EXA1 index `keys[V[x]]` with the
*unmasked* register value; the C array has 16 entries, so a state with
`V[x] ≥ 16` makes the access undefined behaviour, modelled as `none`. -/
def handle_exxx (s : Chip8) (i : Instr) : Option Chip8 :=
  match i.kk with
  | 0x9E =>
    if h : s.V i.x < 16 then
      some (if s.keys ⟨s.V i.x, h⟩ then
              { s with pc := (s.pc + 4) % 65536 }
            else
              { s with pc := (s.pc + 2) % 65536 })
    else none
  | 0xA1 =>
    if h : s.V i.x < 16 then
      some (if ¬ s.keys ⟨s.V i.x, h⟩ then
              { s with pc := (s.pc + 4) % 65536 }
            else
              { s with pc := (s.pc + 2) % 65536 })
    else none
  | _ => some { s with pc := (s.pc + 2) % 65536 }

/-- The `FX0A` key scan (chip8.c:373-381): `for (i = 0; i < 16; i++)
if (keys[i]) { result = i; break; }` — returns the lowest held key
index, or `none` when no key is held.  `fuel` bounds the remaining
iterations (the handler passes 16). -/
def scan_keys (keys : Fin 16 → Bool) : Nat → Nat → Option Nat
  | 0, _ => none
  | f + 1, i =>
    if h : i < 16 then
      if keys ⟨i, h⟩ then some i else scan_keys keys f (i + 1)
    else none

/-- Memory after the `FX55` store loop (chip8.c:424-430): for
`j = 0..x`, write `V[j]` to `memory[I+j]` when `I + j < 4096`,
otherwise warn and drop the write. -/
def fx55_mem (mem : Nat → Nat) (I x : Nat) (V : Nat → Nat) : Nat → Nat :=
  (List.range (x + 1)).foldl
    (fun m j => if I + j < 4096 then Function.update m (I + j) (V j) else m)
    mem

/-- Registers after the `FX65` load loop (chip8.c:437-443): for
`j = 0..x`, load `memory[I+j]` into `V[j]` when `I + j < 4096`,
otherwise warn and skip (the register keeps its old value). -/
def fx65_regs (mem : Nat → Nat) (I x : Nat) (V : Nat → Nat) : Nat → Nat :=
  (List.range (x + 1)).foldl
    (fun vv j => if I + j < 4096 then Function.update vv j (mem (I + j)) else vv)
    V

/-- `handle_fxxx` (chip8.c:362): sub-dispatch on `kk`.  `FX0A` scans
keys 0..15 in order and blocks (returns the state unchanged, no `pc`
advance) while none is held.  `FX1E` adds with `uint16` headroom,
`FX29` multiplies the *unmasked* register value by 5, `FX33`/`FX55`/
`FX65` are memory-bounds-guarded as in the source. -/
def handle_fxxx (s : Chip8) (i : Instr) : Chip8 :=
  match i.kk with
  | 0x07 =>
    { s with V := Function.update s.V i.x s.delay_timer, pc := (s.pc + 2) % 65536 }
  | 0x0A =>
    match scan_keys s.keys 16 0 with
    | some k =>
      { s with V := Function.update s.V i.x k, pc := (s.pc + 2) % 65536 }
    | none => s
  | 0x15 =>
    { s with delay_timer := s.V i.x, pc := (s.pc + 2) % 65536 }
  | 0x18 =>
    { s with sound_timer := s.V i.x, pc := (s.pc + 2) % 65536 }
  | 0x1E =>
    { s with I := (s.I + s.V i.x) % 65536, pc := (s.pc + 2) % 65536 }
  | 0x29 =>
    { s with I := s.V i.x * 5 % 65536, pc := (s.pc + 2) % 65536 }
  | 0x33 =>
    let value := s.V i.x
    let mem' :=
      if s.I + 2 < 4096 then
        Function.update
          (Function.update
            (Function.update s.memory s.I (value / 100))
            (s.I + 1) (value / 10 % 10))
          (s.I + 2) (value % 10)
      else s.memory
    { s with memory := mem', pc := (s.pc + 2) % 65536 }
  | 0x55 =>
    { s with memory := fx55_mem s.memory s.I i.x s.V, pc := (s.pc + 2) % 65536 }
  | 0x65 =>
    { s with V := fx65_regs s.memory s.I i.x s.V, pc := (s.pc + 2) % 65536 }
  | _ => { s with pc := (s.pc + 2) % 65536 }

/-- `chip8_cycle` (chip8.c:539): if `pc + 1 ≥ 4096`, stop.  Otherwise
fetch the big-endian word at `pc`, decode it into `current_instr`, and
dispatch on the high nibble `(opcode & 0xF000) >> 12 = op / 4096 % 16`.
The dispatch table (chip8.c:458) is fully populated, so the C null-entry
fallback is dead; the wildcard arm below is likewise unreachable
(`op / 4096 % 16 < 16`).  Only the `0xE` row can report undefined
behaviour (`none`). -/
def chip8_cycle (rnd : Nat) (s : Chip8) : Option Chip8 :=
  if s.pc + 1 ≥ 4096 then
    some { s with state := EmuState.stopped }
  else
    let op := Nat.lor (s.memory s.pc <<< 8) (s.memory (s.pc + 1)) % 65536
    let i := decode_opcode op
    let s1 := { s with current_instr := i }
    match op / 4096 % 16 with
    | 0x0 => some (handle_0xxx s1 i)
    | 0x1 => some (handle_jp s1 i)
    | 0x2 => some (handle_call s1 i)
    | 0x3 => some (handle_se_vx_kk s1 i)
    | 0x4 => some (handle_sne_vx_kk s1 i)
    | 0x5 => some (handle_se_vx_vy s1 i)
    | 0x6 => some (handle_ld_vx_kk s1 i)
    | 0x7 => some (handle_add_vx_kk s1 i)
    | 0x8 => some (handle_8xxx s1 i)
    | 0x9 => some (handle_sne_vx_vy s1 i)
    | 0xA => some (handle_ld_i_nnn s1 i)
    | 0xB => some (handle_jp_v0_nnn s1 i)
    | 0xC => some (handle_rnd_vx_kk rnd s1 i)
    | 0xD => some (handle_drw_vx_vy_n s1 i)
    | 0xE => handle_exxx s1 i
    | 0xF => some (handle_fxxx s1 i)
    | _ => some { s1 with pc := (s1.pc + 2) % 65536 }

/-- The 80-byte fontset (include/chip8.h:27). -/
def chip8_fontset : List Nat :=
  [0xF0, 0x90, 0x90, 0x90, 0xF0,
   0x20, 0x60, 0x20, 0x20, 0x70,
   0xF0, 0x10, 0xF0, 0x80, 0xF0,
   0xF0, 0x10, 0xF0, 0x10, 0xF0,
   0x90, 0x90, 0xF0, 0x10, 0x10,
   0xF0, 0x80, 0xF0, 0x10, 0xF0,
   0xF0, 0x80, 0xF0, 0x90, 0xF0,
   0xF0, 0x10, 0x20, 0x40, 0x40,
   0xF0, 0x90, 0xF0, 0x90, 0xF0,
   0xF0, 0x90, 0xF0, 0x10, 0xF0,
   0xF0, 0x90, 0xF0, 0x90, 0x90,
   0xE0, 0x90, 0xE0, 0x90, 0xE0,
   0xF0, 0x80, 0x80, 0x80, 0xF0,
   0xE0, 0x90, 0x90, 0x90, 0xE0,
   0xF0, 0x80, 0xF0, 0x80, 0xF0,
   0xF0, 0x80, 0xF0, 0x80, 0x80]

/-- `chip8_init` (chip8.c:481): zero everything, `state = RUNNING`,
`pc = 0x200`, fontset copied to `memory[0..80)`. -/
def chip8_init_state : Chip8 :=
  { state := EmuState.running
    stack := fun _ => 0
    I := 0
    pc := 0x200
    sp := 0
    delay_timer := 0
    sound_timer := 0
    V := fun _ => 0
    keys := fun _ => false
    display := fun _ => false
    memory := fun a => if a < 80 then chip8_fontset.getD a 0 else 0
    current_instr := { opcode := 0, nnn := 0, kk := 0, x := 0, y := 0, n := 0 } }

/-- Memory effect of `chip8_load_program` (chip8.c:495): a ROM of `len`
bytes is copied to `memory[0x200 .. 0x200+len)` when `len ≤ 3584`;
a larger ROM is rejected and the state is left untouched. -/
def chip8_load_rom (s : Chip8) (rom : Nat → Nat) (len : Nat) : Chip8 :=
  if len ≤ 3584 then
    { s with memory := fun a =>
        if 0x200 ≤ a ∧ a < 0x200 + len then rom (a - 0x200) else s.memory a }
  else s

/-- Host keypad write (`set_key` of the spec; sdl_interface.c maps each
SDL key to an index in 0..15 before writing `emu->keys[idx]`). -/
def set_key (s : Chip8) (i : Fin 16) (d : Bool) : Chip8 :=
  { s with keys := Function.update s.keys i d }

/-- `chip8_timers_decrement` (chip8.c:571): saturating 0-floor decrement
of both timers (the audio side effects are host I/O). -/
def chip8_timers_decrement (s : Chip8) : Chip8 :=
  let s1 := if s.delay_timer > 0 then { s with delay_timer := s.delay_timer - 1 } else s
  if s1.sound_timer > 0 then { s1 with sound_timer := s1.sound_timer - 1 } else s1

/-- Host cancellation: the SDL layer / main loop sets
`emu.state = CHIP8_STOPPED` between cycles (e.g. window close). -/
def host_stop (s : Chip8) : Chip8 :=
  { s with state := EmuState.stopped }

/-- The CPU step of one main-loop iteration (main.c:140-145): the host
calls `chip8_cycle` only when `emu.state == CHIP8_RUNNING`; otherwise the
iteration leaves the machine untouched.  (The 60 Hz timer tick and the
screen render that follow the cycle are host-time-dependent I/O and are
not part of this step.) -/
def main_loop_cycle (rnd : Nat) (s : Chip8) : Option Chip8 :=
  if s.state = EmuState.running then chip8_cycle rnd s else some s

/-- States reachable from `chip8_init` followed by `chip8_load_program`
with ROM `rom` of length `len`, under any interleaving of CPU cycles
(with any RNG oracle), host key writes, 60 Hz timer decrements and host
cancellation. -/
inductive Reach (rom : Nat → Nat) (len : Nat) : Chip8 → Prop where
  | init : Reach rom len (chip8_load_rom chip8_init_state rom len)
  | step {s s' : Chip8} (rnd : Nat) :
      Reach rom len s → chip8_cycle rnd s = some s' → Reach rom len s'
  | key {s : Chip8} (i : Fin 16) (d : Bool) :
      Reach rom len s → Reach rom len (set_key s i d)
  | tick {s : Chip8} :
      Reach rom len s → Reach rom len (chip8_timers_decrement s)
  | stop {s : Chip8} :
      Reach rom len s → Reach rom len (host_stop s)

/-! ## Concrete states and programs used by the claims -/

/-- The inductive bound on control state maintained by every reachable
state: `pc` never exceeds 4098 (a taken skip executed at the last legal
fetch address 4094), `sp` never exceeds the stack depth 16, and every
stack slot holds an address at most 4094 (a `pc` at which an
instruction executed). -/
def StateBounds (s : Chip8) : Prop :=
  s.pc ≤ 4098 ∧ s.sp ≤ 16 ∧ ∀ k, s.stack k ≤ 4094

/-- ROM `22 04 00 00 00 EE`: `CALL 0x204` at 0x200, `RET` at 0x204. -/
def callRetRom : Nat → Nat := fun a =>
  if a = 0 then 0x22 else if a = 1 then 0x04 else
  if a = 4 then 0x00 else if a = 5 then 0xEE else 0

/-- Freshly initialised machine with `callRetRom` loaded. -/
def callRetS0 : Chip8 := chip8_load_rom chip8_init_state callRetRom 6

/-- `callRetS0` after one cycle (the CALL). -/
def callRetS1 : Chip8 := (chip8_cycle 0 callRetS0).getD callRetS0

/-- `callRetS1` after one more cycle (the RET). -/
def callRetS2 : Chip8 := (chip8_cycle 0 callRetS1).getD callRetS1

/-- State for the 8XY4 flag-order counterexample: `V[0xF] = 200`,
`V[0] = 100`, everything else fresh. -/
def addFlagState : Chip8 :=
  { chip8_init_state with V := fun j => if j = 0xF then 200 else if j = 0 then 100 else 0 }

/-- State for the EX9E out-of-bounds counterexample: `V[0] = 0xFF`. -/
def keyOobState : Chip8 :=
  { chip8_init_state with V := fun j => if j = 0 then 0xFF else 0 }

/-- A stopped machine whose memory still holds an executable
instruction (`6005`, i.e. `LD V0, 5`) at `pc = 0x200`. -/
def stoppedState : Chip8 :=
  { chip8_init_state with
      state := EmuState.stopped
      memory := fun a => if a = 0x200 then 0x60 else if a = 0x201 then 0x05 else 0 }

/-- ROM `1F FE` followed (at offset 3582) by `30 00`: `JP 0xFFE`,
and `SE V0, 0` at address 0xFFE. -/
def skipTopRom : Nat → Nat := fun a =>
  if a = 0 then 0x1F else if a = 1 then 0xFE else
  if a = 3582 then 0x30 else 0

/-- Freshly initialised machine with `skipTopRom` loaded (3584 bytes,
filling memory up to 0xFFF). -/
def skipTopS0 : Chip8 := chip8_load_rom chip8_init_state skipTopRom 3584

/-- `skipTopS0` after the `JP 0xFFE`. -/
def skipTopS1 : Chip8 := (chip8_cycle 0 skipTopS0).getD skipTopS0

/-- `skipTopS1` after the taken `SE V0, 0` at 0xFFE. -/
def skipTopS2 : Chip8 := (chip8_cycle 0 skipTopS1).getD skipTopS1

/-- ROM of 17 chained CALLs: the instruction at `0x200 + 2k` is
`CALL 0x202 + 2k` (bytes `0x22, 2k+2`). -/
def callChainRom : Nat → Nat := fun a => if a % 2 = 0 then 0x22 else a + 1

/-- Fresh machine with `callChainRom` loaded. -/
def callChainS0 : Chip8 := chip8_load_rom chip8_init_state callChainRom 36

/-- One forced CPU cycle (UB-free programs never take the `getD`
fallback). -/
def cycleD (s : Chip8) : Chip8 := (chip8_cycle 0 s).getD s

/-- `callChainS0` after 16 successful CALLs: `sp = 16`, stack full. -/
def callChainS16 : Chip8 := cycleD^[16] callChainS0

/-- State for the FX29 unmasked-font-index counterexample:
`V[0] = 0x10`. -/
def fontOobState : Chip8 :=
  { chip8_init_state with V := fun j => if j = 0 then 0x10 else 0 }

/-- ROM `F0 0A`: `LD V0, K` (key wait) at 0x200. -/
def keyWaitRom : Nat → Nat := fun a =>
  if a = 0 then 0xF0 else if a = 1 then 0x0A else 0

/-- Fresh machine with `keyWaitRom` loaded, no key held. -/
def keyWaitS0 : Chip8 := chip8_load_rom chip8_init_state keyWaitRom 2

/-- `keyWaitS0` after the host presses key 7. -/
def keyWaitS0k : Chip8 := set_key keyWaitS0 7 true

/-- Memory holding the single sprite byte `0xFF` at 0x300. -/
def spriteMem : Nat → Nat := fun a => if a = 0x300 then 0xFF else 0

/-- Fresh machine (cleared framebuffer, all `V` zero) with
`memory[0x300] = 0xFF` and `I = 0x300`. -/
def spriteState : Chip8 := { chip8_init_state with memory := spriteMem, I := 0x300 }

/-- The framebuffer after drawing the 8×1 all-ones sprite at (0,0) on a
cleared screen: pixels 0..7 set. -/
def spriteChain1 : Nat → Bool :=
  Function.update (Function.update (Function.update (Function.update
    (Function.update (Function.update (Function.update (Function.update
      (fun _ => false) 0 true) 1 true) 2 true) 3 true) 4 true) 5 true) 6 true) 7 true

/-- The framebuffer after drawing the same sprite a second time:
pixels 0..7 toggled back off. -/
def spriteChain2 : Nat → Bool :=
  Function.update (Function.update (Function.update (Function.update
    (Function.update (Function.update (Function.update (Function.update
      spriteChain1 0 false) 1 false) 2 false) 3 false) 4 false) 5 false) 6 false) 7 false

/-- `spriteState` after the first `DRW`: display `spriteChain1`,
`V` still all zero (`V[0xF]` was re-written to 0), `pc = 0x202`. -/
def spriteMid : Chip8 :=
  { state := EmuState.running
    stack := fun _ => 0
    I := 0x300
    pc := 514
    sp := 0
    delay_timer := 0
    sound_timer := 0
    V := fun _ => 0
    keys := fun _ => false
    display := spriteChain1
    memory := spriteMem
    current_instr := { opcode := 0, nnn := 0, kk := 0, x := 0, y := 0, n := 0 } }

/-- Fresh machine with `I = 4094`, so that an `FX65` with `x ≥ 2`
crosses the end of memory. -/
def memEdgeState : Chip8 := { chip8_init_state with I := 4094 }

/-! ## Claim theorems -/

/-- If no key is held, the `FX0A` scan loop finds nothing. -/
theorem scan_keys_eq_none (keys : Fin 16 → Bool)
    (hnone : ∀ k : Fin 16, keys k = false) :
    ∀ fuel i, scan_keys keys fuel i = none := by
  intro fuel
  induction fuel with
  | zero => intro i; rfl
  | succ f ih =>
    intro i
    unfold scan_keys
    by_cases h : i < 16
    · rw [dif_pos h, hnone ⟨i, h⟩]
      simpa using ih (i + 1)
    · rw [dif_neg h]

/-- The `FX0A` scan loop returns the lowest held key index. -/
theorem scan_keys_eq_first (keys : Fin 16 → Bool) (k : Fin 16)
    (hheld : keys k = true)
    (hlow : ∀ j : Fin 16, j.val < k.val → keys j = false) :
    ∀ fuel i, i ≤ k.val → k.val < i + fuel → scan_keys keys fuel i = some k.val := by
  intro fuel
  induction fuel with
  | zero => intro i h1 h2; omega
  | succ f ih =>
    intro i h1 h2
    have hi : i < 16 := lt_of_le_of_lt h1 k.isLt
    unfold scan_keys
    rw [dif_pos hi]
    by_cases he : i = k.val
    · rw [show (⟨i, hi⟩ : Fin 16) = k from Fin.ext he, hheld]
      simp [he]
    · rw [hlow ⟨i, hi⟩ (by simp only; omega)]
      simpa using ih (i + 1) (by omega) (by omega)

/-- Pointwise description of the `FX65` register loop: `V[j]` receives
`memory[I+j]` exactly when `j ≤ x` and `I + j < 4096`; otherwise it is
untouched. -/
theorem fx65_regs_apply (mem : Nat → Nat) (I : Nat) :
    ∀ (x : Nat) (V : Nat → Nat) (j : Nat),
      fx65_regs mem I x V j = if j ≤ x ∧ I + j < 4096 then mem (I + j) else V j := by
  intro x
  induction x with
  | zero =>
    intro V j
    simp only [fx65_regs, List.range_succ, List.range_zero, List.nil_append,
      List.foldl_cons, List.foldl_nil]
    by_cases h : I + 0 < 4096
    · rw [if_pos h, Function.update_apply]
      split_ifs <;> simp_all
    · rw [if_neg h, if_neg (by omega)]
  | succ m ih =>
    intro V j
    simp only [fx65_regs] at ih ⊢
    rw [List.range_succ, List.foldl_append, List.foldl_cons, List.foldl_nil]
    by_cases h : I + (m + 1) < 4096
    · rw [if_pos h, Function.update_apply]
      by_cases hj : j = m + 1
      · subst hj
        rw [if_pos rfl, if_pos ⟨le_refl _, h⟩]
      · rw [if_neg hj, ih V j]
        split_ifs <;> first | rfl | omega
    · rw [if_neg h, ih V j]
      split_ifs <;> first | rfl | omega

/-- C1: the claim says CALL pushes `pc + 2` so that RET lands on the
instruction following the CALL.  The code instead pushes the CALL's own
address and RET does not increment: running `CALL 0x204; ...; RET`
pushes 0x200 (not 0x202) and the RET sets `pc = 0x200`, re-executing
the CALL forever.  This contradicts the spec (which stores `pc+2` at
CALL precisely so RET needs no further increment). -/
theorem call_ret_returns_to_call_itself :
    callRetS1.stack 0 = 0x200 ∧ callRetS1.sp = 1 ∧ callRetS1.pc = 0x204 ∧
    callRetS2.pc = 0x200 ∧ callRetS2.pc ≠ 0x202 := by
  refine ⟨rfl, rfl, rfl, rfl, ?_⟩
  decide

/-- C2 counterexample: with `V[0xF] = 200`, `V[0] = 100`, executing
`8F04` (x = 0xF) leaves `V[0xF] = 44` — the low byte of the sum — and
not the carry flag 1 required by the claim. -/
theorem add_carry_x15_counterexample :
    addFlagState.V 0xF = 200 ∧ addFlagState.V 0 = 100 ∧
    200 + 100 > 255 ∧
    (handle_8xxx addFlagState (decode_opcode 0x8F04)).V 0xF = 44 ∧
    (handle_8xxx addFlagState (decode_opcode 0x8F04)).V 0xF ≠ 1 := by
  refine ⟨rfl, rfl, by decide, rfl, by decide⟩

/-- C2 amended: `handle_8xxx` case 4 writes the carry into `V[0xF]`
*before* storing the low byte into `V[x]`.  Hence for `x ≠ 0xF` the
claimed result holds (`V[x] = (a+b) mod 256`, `VF = carry`), but for
`x = 0xF` the store clobbers the flag and the final `V[0xF]` is the low
byte of the sum. -/
theorem add_carry_flag_written_before_store (s : Chip8) (i : Instr) (hn : i.n = 4) :
    (i.x ≠ 0xF →
      (handle_8xxx s i).V i.x = (s.V i.x + s.V i.y) % 256 ∧
      (handle_8xxx s i).V 0xF = (if s.V i.x + s.V i.y > 0xFF then 1 else 0)) ∧
    (i.x = 0xF →
      (handle_8xxx s i).V 0xF = (s.V i.x + s.V i.y) % 256) := by
  obtain ⟨op, nnn, kk, x, y, n⟩ := i
  simp only at hn
  subst hn
  constructor
  · intro hx
    dsimp only at hx ⊢
    constructor
    · show (Function.update (Function.update s.V 0xF (if s.V x + s.V y > 0xFF then 1 else 0))
          x ((s.V x + s.V y) % 256)) x = (s.V x + s.V y) % 256
      rw [Function.update_same]
    · show (Function.update (Function.update s.V 0xF (if s.V x + s.V y > 0xFF then 1 else 0))
          x ((s.V x + s.V y) % 256)) 0xF = (if s.V x + s.V y > 0xFF then 1 else 0)
      rw [Function.update_noteq (Ne.symm hx), Function.update_same]
  · intro hx
    dsimp only at hx
    subst hx
    show (Function.update (Function.update s.V 0xF (if s.V 0xF + s.V y > 0xFF then 1 else 0))
        0xF ((s.V 0xF + s.V y) % 256)) 0xF = (s.V 0xF + s.V y) % 256
    rw [Function.update_same]

/-- C2 witness: the amended theorem at `x = 0, y = 1`, `V` fresh. -/
theorem add_carry_flag_written_before_store_witness :
    ((0 : Nat) ≠ 0xF →
      (handle_8xxx chip8_init_state (decode_opcode 0x8014)).V 0 = (0 + 0) % 256 ∧
      (handle_8xxx chip8_init_state (decode_opcode 0x8014)).V 0xF =
        (if (0 : Nat) + 0 > 0xFF then 1 else 0)) ∧
    ((0 : Nat) = 0xF →
      (handle_8xxx chip8_init_state (decode_opcode 0x8014)).V 0xF = (0 + 0) % 256) :=
  add_carry_flag_written_before_store chip8_init_state (decode_opcode 0x8014) (by decide)

/-- C3: the claim says EX9E/EXA1 consult the keypad only at
`V[x] & 0xF`.  The code indexes `keys[V[x]]` with the raw byte: with
`V[0] = 0xFF` the access falls 239 entries past the 16-element array
(undefined behaviour, modelled as `none`), while the masked index
`0xFF & 0xF = 15` would have been in bounds. -/
theorem skp_key_index_out_of_bounds :
    keyOobState.V 0 = 0xFF ∧
    handle_exxx keyOobState (decode_opcode 0xE09E) = none ∧
    handle_exxx keyOobState (decode_opcode 0xE0A1) = none ∧
    0xFF % 16 = 15 := by
  exact ⟨rfl, rfl, rfl, rfl⟩

/-- C5 counterexample: `chip8_cycle` never reads `emu->state`.  On a
Stopped machine whose memory holds `LD V0, 5` at `pc = 0x200`, a call to
`chip8_cycle` still executes the instruction: `pc` advances to 0x202 and
`V[0]` becomes 5. -/
theorem cycle_executes_when_stopped :
    stoppedState.state = EmuState.stopped ∧ stoppedState.pc = 0x200 ∧
    (chip8_cycle 0 stoppedState).map Chip8.pc = some 0x202 ∧
    (chip8_cycle 0 stoppedState).map (fun t => t.V 0) = some 5 := by
  exact ⟨rfl, rfl, rfl, rfl⟩

/-- C5 amended: the status check lives in the host loop (main.c
140-145), not in `chip8_cycle`: the host invokes `chip8_cycle` only when
`state == CHIP8_RUNNING`, so one main-loop CPU step on a non-Running
machine executes nothing and leaves the entire state unchanged. -/
theorem main_loop_gates_on_running (rnd : Nat) (s : Chip8)
    (h : s.state ≠ EmuState.running) :
    main_loop_cycle rnd s = some s := by
  unfold main_loop_cycle
  rw [if_neg h]

/-- C5 witness: the amended theorem at the concrete Stopped state. -/
theorem main_loop_gates_on_running_witness :
    main_loop_cycle 0 stoppedState = some stoppedState :=
  main_loop_gates_on_running 0 stoppedState (by decide)

/-- C7: with `sp = 16`, CALL transitions the state to Stopped and
nothing else changes — the record update touches only `state`, so the
stack, `sp`, `pc` and all registers are untouched. -/
theorem call_stack_overflow_stops (s : Chip8) (i : Instr) (hsp : s.sp = 16) :
    handle_call s i = { s with state := EmuState.stopped } := by
  unfold handle_call
  rw [hsp]
  simp

/-- C7 witness: after 16 successful chained CALLs (`sp = 16`,
`pc = 0x220`), the 17th CALL (opcode `0x2222`) only stops the machine. -/
theorem call_stack_overflow_stops_witness :
    callChainS16.sp = 16 ∧
    handle_call callChainS16 (decode_opcode 0x2222) =
      { callChainS16 with state := EmuState.stopped } :=
  ⟨by decide, call_stack_overflow_stops callChainS16 (decode_opcode 0x2222) (by decide)⟩

/-- C9 counterexample: with `V[0] = 0x10`, `FX29` sets `I = 80`
(`V[x] * 5`, unmasked), not `(V[x] & 0x0F) * 5 = 0` as the claim
requires. -/
theorem fx29_unmasked_counterexample :
    fontOobState.V 0 = 0x10 ∧
    (handle_fxxx fontOobState (decode_opcode 0xF029)).I = 80 ∧
    (0x10 % 16) * 5 = 0 ∧
    (handle_fxxx fontOobState (decode_opcode 0xF029)).I ≠ (0x10 % 16) * 5 := by
  exact ⟨rfl, rfl, rfl, by decide⟩

/-- C9 amended: `FX29` sets `I = V[x] * 5` with the *unmasked* register
value (`uint16` cast) and advances `pc` by 2; this agrees with the
claimed `(V[x] & 0x0F) * 5` exactly when `V[x] ≤ 0x0F`. -/
theorem fx29_font_address_unmasked (s : Chip8) (i : Instr) (hk : i.kk = 0x29) :
    (handle_fxxx s i).I = s.V i.x * 5 % 65536 ∧
    (handle_fxxx s i).pc = (s.pc + 2) % 65536 ∧
    (s.V i.x < 16 → (handle_fxxx s i).I = (s.V i.x % 16) * 5) := by
  obtain ⟨op, nnn, kk, x, y, n⟩ := i
  simp only at hk
  subst hk
  refine ⟨rfl, rfl, ?_⟩
  intro hv
  dsimp only at hv
  show s.V x * 5 % 65536 = s.V x % 16 * 5
  rw [Nat.mod_eq_of_lt (by omega), Nat.mod_eq_of_lt hv]

/-- C9 witness: the amended theorem at the `V[0] = 0x10` state. -/
theorem fx29_font_address_unmasked_witness :
    (handle_fxxx fontOobState (decode_opcode 0xF029)).I =
      fontOobState.V (decode_opcode 0xF029).x * 5 % 65536 ∧
    (handle_fxxx fontOobState (decode_opcode 0xF029)).pc =
      (fontOobState.pc + 2) % 65536 ∧
    (fontOobState.V (decode_opcode 0xF029).x < 16 →
      (handle_fxxx fontOobState (decode_opcode 0xF029)).I =
        (fontOobState.V (decode_opcode 0xF029).x % 16) * 5) :=
  fx29_font_address_unmasked fontOobState (decode_opcode 0xF029) (by decide)

/-- C6: `FX0A` with no key held leaves the whole state unchanged (the
handler returns without advancing `pc`, so the opcode re-executes);
with keys held it stores the lowest held index into `V[x]` and advances
`pc` by 2.  In particular, for the program `F0 0A` at 0x200, a cycle
with no key held keeps `pc = 0x200`, and after pressing key 7 one cycle
gives `V[0] = 7` and `pc = 0x202`. -/
theorem fx0a_key_wait (s : Chip8) (i : Instr) (hk : i.kk = 0x0A) :
    ((∀ k : Fin 16, s.keys k = false) → handle_fxxx s i = s) ∧
    (∀ k : Fin 16, s.keys k = true →
      (∀ j : Fin 16, j.val < k.val → s.keys j = false) →
      handle_fxxx s i =
        { s with V := Function.update s.V i.x k.val, pc := (s.pc + 2) % 65536 }) ∧
    (chip8_cycle 0 keyWaitS0).map Chip8.pc = some 0x200 ∧
    (chip8_cycle 0 keyWaitS0k).map (fun t => (t.V 0, t.pc)) = some (7, 0x202) := by
  obtain ⟨op, nnn, kk, x, y, n⟩ := i
  dsimp only at hk ⊢
  subst hk
  refine ⟨?_, ?_, rfl, rfl⟩
  · intro hnone
    show (match scan_keys s.keys 16 0 with
      | some k => { s with V := Function.update s.V x k, pc := (s.pc + 2) % 65536 }
      | none => s) = s
    rw [scan_keys_eq_none s.keys hnone 16 0]
  · intro k hheld hlow
    show (match scan_keys s.keys 16 0 with
      | some j => { s with V := Function.update s.V x j, pc := (s.pc + 2) % 65536 }
      | none => s) = _
    rw [scan_keys_eq_first s.keys k hheld hlow 16 0 (by omega) (by omega)]

/-- C6 witness: the theorem applied to the key-wait program state with
key 7 held, evaluated at the concrete lowest key 7. -/
theorem fx0a_key_wait_witness :
    handle_fxxx keyWaitS0k (decode_opcode 0xF00A) =
      { keyWaitS0k with
          V := Function.update keyWaitS0k.V (decode_opcode 0xF00A).x (7 : Fin 16).val
          pc := (keyWaitS0k.pc + 2) % 65536 } :=
  (fx0a_key_wait keyWaitS0k (decode_opcode 0xF00A) (by decide)).2.1 7 (by decide)
    (by decide)

/-- C10: `FX65` loads `memory[I+j]` into `V[j]` for every `j ≤ x` whose
address `I + j` is in bounds; a `j` with `I + j ≥ 4096` is skipped (the
register keeps its old value, no wrap-around), and `pc` advances by 2 in
all cases. -/
theorem fx65_loads_only_in_bounds (s : Chip8) (i : Instr) (hk : i.kk = 0x65) :
    (∀ j, j ≤ i.x → s.I + j < 4096 →
      (handle_fxxx s i).V j = s.memory (s.I + j)) ∧
    (∀ j, j ≤ i.x → 4096 ≤ s.I + j →
      (handle_fxxx s i).V j = s.V j) ∧
    (handle_fxxx s i).pc = (s.pc + 2) % 65536 := by
  obtain ⟨op, nnn, kk, x, y, n⟩ := i
  dsimp only at hk ⊢
  subst hk
  refine ⟨?_, ?_, rfl⟩
  · intro j hj hb
    show fx65_regs s.memory s.I x s.V j = _
    rw [fx65_regs_apply, if_pos ⟨hj, hb⟩]
  · intro j hj hb
    show fx65_regs s.memory s.I x s.V j = _
    rw [fx65_regs_apply, if_neg (by omega)]

/-- C10 witness: `F365` with `I = 4094`: `V[1]` receives
`memory[4095]`, `V[3]` (address 4097, out of bounds) is untouched,
`pc` advances by 2. -/
theorem fx65_loads_only_in_bounds_witness :
    (handle_fxxx memEdgeState (decode_opcode 0xF365)).V 1 =
      memEdgeState.memory (memEdgeState.I + 1) ∧
    (handle_fxxx memEdgeState (decode_opcode 0xF365)).V 3 = memEdgeState.V 3 ∧
    (handle_fxxx memEdgeState (decode_opcode 0xF365)).pc =
      (memEdgeState.pc + 2) % 65536 :=
  ⟨(fx65_loads_only_in_bounds memEdgeState (decode_opcode 0xF365) (by decide)).1 1
      (by decide) (by decide),
   (fx65_loads_only_in_bounds memEdgeState (decode_opcode 0xF365) (by decide)).2.1 3
      (by decide) (by decide),
   (fx65_loads_only_in_bounds memEdgeState (decode_opcode 0xF365) (by decide)).2.2⟩

set_option maxHeartbeats 1000000 in
/-- C8: on a cleared framebuffer with the all-ones sprite byte at
`memory[I]` and all registers zero (so `V[x] = V[y] = 0` for any choice
of registers), one `DRW Vx,Vy,1` gives `VF = 0` and sets exactly pixels
0..7 (8 set pixels, all in row 0); a second identical `DRW` gives
`VF = 1` and clears every pixel. -/
theorem drw_xor_self_inverse (i : Instr) (hn : i.n = 1) :
    ((handle_drw_vx_vy_n spriteState i).V 15 = 0 ∧
      (∀ idx, (handle_drw_vx_vy_n spriteState i).display idx = true ↔ idx < 8) ∧
      (List.range 64).countP (handle_drw_vx_vy_n spriteState i).display = 8) ∧
    ((handle_drw_vx_vy_n (handle_drw_vx_vy_n spriteState i) i).V 15 = 1 ∧
      ∀ idx, (handle_drw_vx_vy_n (handle_drw_vx_vy_n spriteState i) i).display idx = false) := by
  obtain ⟨op, nnn, kk, x, y, n⟩ := i
  dsimp only at hn
  subst hn
  have hr1 : handle_drw_vx_vy_n spriteState ⟨op, nnn, kk, x, y, 1⟩ =
      { spriteMid with V := Function.update (fun _ => (0 : Nat)) 15 0 } := rfl
  have hmid : ({ spriteMid with V := Function.update (fun _ => (0 : Nat)) 15 0 } : Chip8) =
      spriteMid := by
    have hc : Function.update (fun _ => (0 : Nat)) 15 0 = fun _ => (0 : Nat) := by
      funext a
      simp [Function.update_apply]
    rw [hc]
    rfl
  rw [hr1, hmid]
  have hd2 : (handle_drw_vx_vy_n spriteMid ⟨op, nnn, kk, x, y, 1⟩).display = spriteChain2 :=
    rfl
  refine ⟨⟨rfl, ?_, ?_⟩, rfl, ?_⟩
  · intro idx
    show spriteChain1 idx = true ↔ idx < 8
    simp only [spriteChain1, Function.update_apply]
    split_ifs <;> simp_all
    omega
  · show (List.range 64).countP spriteChain1 = 8
    decide
  · intro idx
    rw [hd2]
    simp only [spriteChain2, spriteChain1, Function.update_apply]
    split_ifs <;> rfl

set_option maxHeartbeats 1000000 in
/-- C8 witness: the theorem at the concrete opcode `D011`
(x = 0, y = 1, n = 1), sampled at pixel 3. -/
theorem drw_xor_self_inverse_witness :
    (handle_drw_vx_vy_n spriteState (decode_opcode 0xD011)).V 15 = 0 ∧
    ((handle_drw_vx_vy_n spriteState (decode_opcode 0xD011)).display 3 = true ↔ 3 < 8) ∧
    (List.range 64).countP (handle_drw_vx_vy_n spriteState (decode_opcode 0xD011)).display = 8 ∧
    (handle_drw_vx_vy_n (handle_drw_vx_vy_n spriteState (decode_opcode 0xD011))
        (decode_opcode 0xD011)).V 15 = 1 ∧
    (handle_drw_vx_vy_n (handle_drw_vx_vy_n spriteState (decode_opcode 0xD011))
        (decode_opcode 0xD011)).display 3 = false :=
  ⟨(drw_xor_self_inverse (decode_opcode 0xD011) (by decide)).1.1,
   (drw_xor_self_inverse (decode_opcode 0xD011) (by decide)).1.2.1 3,
   (drw_xor_self_inverse (decode_opcode 0xD011) (by decide)).1.2.2,
   (drw_xor_self_inverse (decode_opcode 0xD011) (by decide)).2.1,
   (drw_xor_self_inverse (decode_opcode 0xD011) (by decide)).2.2 3⟩

/-- The ALU dispatch always advances `pc` by exactly 2, whatever the
low nibble selects. -/
theorem handle_8xxx_pc (s : Chip8) (i : Instr) :
    (handle_8xxx s i).pc = (s.pc + 2) % 65536 := by
  simp only [handle_8xxx]
  split <;> rfl

/-- The ALU dispatch never touches `sp`. -/
theorem handle_8xxx_sp (s : Chip8) (i : Instr) :
    (handle_8xxx s i).sp = s.sp := by
  simp only [handle_8xxx]
  split <;> rfl

/-- The ALU dispatch never touches the stack. -/
theorem handle_8xxx_stack (s : Chip8) (i : Instr) :
    (handle_8xxx s i).stack = s.stack := by
  simp only [handle_8xxx]
  split <;> rfl

/-- Every `FX__` handler advances `pc` by at most 2 (`FX0A` with no key
held advances by 0). -/
theorem handle_fxxx_pc_le (s : Chip8) (i : Instr) :
    (handle_fxxx s i).pc ≤ s.pc + 2 := by
  simp only [handle_fxxx]
  split
  all_goals try split
  all_goals try dsimp only
  all_goals omega

/-- No `FX__` handler touches `sp`. -/
theorem handle_fxxx_sp (s : Chip8) (i : Instr) :
    (handle_fxxx s i).sp = s.sp := by
  simp only [handle_fxxx]
  split <;> first | rfl | (split <;> rfl)

/-- No `FX__` handler touches the stack. -/
theorem handle_fxxx_stack (s : Chip8) (i : Instr) :
    (handle_fxxx s i).stack = s.stack := by
  simp only [handle_fxxx]
  split <;> first | rfl | (split <;> rfl)

/-- A defined EX9E/EXA1 step preserves the control bounds. -/
theorem handle_exxx_bounds {s s' : Chip8} (i : Instr)
    (h : handle_exxx s i = some s')
    (hpc : s.pc ≤ 4094) (hsp : s.sp ≤ 16) (hst : ∀ k, s.stack k ≤ 4094) :
    StateBounds s' := by
  unfold handle_exxx at h
  split at h
  · split at h
    · split at h <;>
        (injection h with h2; rw [← h2]; exact ⟨by dsimp only; omega, hsp, hst⟩)
    · exact absurd h (by simp)
  · split at h
    · split at h <;>
        (injection h with h2; rw [← h2]; exact ⟨by dsimp only; omega, hsp, hst⟩)
    · exact absurd h (by simp)
  · injection h with h2
    rw [← h2]
    exact ⟨by dsimp only; omega, hsp, hst⟩

/-- A CALL (target masked to 12 bits by decoding) preserves the control
bounds: the pushed return slot is the current `pc ≤ 4094`. -/
theorem handle_call_bounds {s : Chip8} (i : Instr) (hnnn : i.nnn < 4096)
    (hpc : s.pc ≤ 4094) (hsp : s.sp ≤ 16) (hst : ∀ k, s.stack k ≤ 4094) :
    StateBounds (handle_call s i) := by
  unfold handle_call
  split
  · rename_i hlt
    refine ⟨by dsimp only; omega, by dsimp only; omega, ?_⟩
    intro k
    dsimp only
    rw [Function.update_apply]
    split_ifs
    · exact hpc
    · exact hst k
  · exact ⟨by dsimp only; omega, hsp, hst⟩

/-- Every `FX__` handler preserves the control bounds. -/
theorem handle_fxxx_bounds {s : Chip8} (i : Instr)
    (hpc : s.pc ≤ 4094) (hsp : s.sp ≤ 16) (hst : ∀ k, s.stack k ≤ 4094) :
    StateBounds (handle_fxxx s i) :=
  ⟨by have := handle_fxxx_pc_le s i; omega,
   by rw [handle_fxxx_sp]; exact hsp,
   by rw [handle_fxxx_stack]; exact hst⟩

/-- CLS/RET/SYS preserve the control bounds (RET pops an address that
was pushed as a `pc ≤ 4094`). -/
theorem handle_0xxx_bounds {s : Chip8} (i : Instr)
    (hpc : s.pc ≤ 4094) (hsp : s.sp ≤ 16) (hst : ∀ k, s.stack k ≤ 4094) :
    StateBounds (handle_0xxx s i) := by
  unfold handle_0xxx
  split
  · exact ⟨by dsimp only [handle_cls]; omega, hsp, hst⟩
  · unfold handle_ret
    split
    · exact ⟨by dsimp only; exact le_trans (hst _) (by norm_num), by dsimp only; omega, hst⟩
    · exact ⟨by dsimp only; omega, hsp, hst⟩
  · exact ⟨by dsimp only; omega, hsp, hst⟩

/-- A defined CPU cycle preserves the control bounds: the fetch guard
admits only `pc ≤ 4094`, every handler then moves `pc` to at most
`pc + 4 ≤ 4098`, a 12-bit jump target, or a stacked return address. -/
theorem stateBounds_cycle {s s' : Chip8} (rnd : Nat)
    (hb : StateBounds s) (hcyc : chip8_cycle rnd s = some s') : StateBounds s' := by
  obtain ⟨hpc98, hsp, hst⟩ := hb
  unfold chip8_cycle at hcyc
  by_cases hg : s.pc + 1 ≥ 4096
  · rw [if_pos hg] at hcyc
    injection hcyc with h
    rw [← h]
    exact ⟨hpc98, hsp, hst⟩
  · rw [if_neg hg] at hcyc
    have hpc : s.pc ≤ 4094 := by omega
    dsimp only at hcyc
    split at hcyc
    · injection hcyc with h
      rw [← h]
      exact handle_0xxx_bounds _ hpc hsp hst
    · injection hcyc with h
      rw [← h]
      exact ⟨by dsimp only [handle_jp, decode_opcode]; omega, hsp, hst⟩
    · injection hcyc with h
      rw [← h]
      exact handle_call_bounds _ (by dsimp only [decode_opcode]; omega) hpc hsp hst
    · injection hcyc with h
      rw [← h]
      unfold handle_se_vx_kk
      split <;> exact ⟨by dsimp only; omega, hsp, hst⟩
    · injection hcyc with h
      rw [← h]
      unfold handle_sne_vx_kk
      split <;> exact ⟨by dsimp only; omega, hsp, hst⟩
    · injection hcyc with h
      rw [← h]
      unfold handle_se_vx_vy
      split <;> exact ⟨by dsimp only; omega, hsp, hst⟩
    · injection hcyc with h
      rw [← h]
      exact ⟨by dsimp only [handle_ld_vx_kk]; omega, hsp, hst⟩
    · injection hcyc with h
      rw [← h]
      exact ⟨by dsimp only [handle_add_vx_kk]; omega, hsp, hst⟩
    · injection hcyc with h
      rw [← h]
      refine ⟨?_, ?_, ?_⟩
      · rw [handle_8xxx_pc]
        dsimp only
        omega
      · rw [handle_8xxx_sp]
        exact hsp
      · rw [handle_8xxx_stack]
        exact hst
    · injection hcyc with h
      rw [← h]
      unfold handle_sne_vx_vy
      split <;> exact ⟨by dsimp only; omega, hsp, hst⟩
    · injection hcyc with h
      rw [← h]
      exact ⟨by dsimp only [handle_ld_i_nnn]; omega, hsp, hst⟩
    · injection hcyc with h
      rw [← h]
      exact ⟨by dsimp only [handle_jp_v0_nnn, decode_opcode]; omega, hsp, hst⟩
    · injection hcyc with h
      rw [← h]
      exact ⟨by dsimp only [handle_rnd_vx_kk]; omega, hsp, hst⟩
    · injection hcyc with h
      rw [← h]
      exact ⟨by simp only [handle_drw_vx_vy_n]; omega, hsp, hst⟩
    · exact handle_exxx_bounds _ hcyc hpc hsp hst
    · injection hcyc with h
      rw [← h]
      exact handle_fxxx_bounds _ hpc hsp hst
    · injection hcyc with h
      rw [← h]
      exact ⟨by dsimp only; omega, hsp, hst⟩

/-- Every reachable state satisfies the control bounds. -/
theorem reach_bounds {rom : Nat → Nat} {len : Nat} {s : Chip8}
    (h : Reach rom len s) : StateBounds s := by
  induction h with
  | init =>
    unfold chip8_load_rom
    split
    · exact ⟨by norm_num [chip8_init_state], by norm_num [chip8_init_state],
        fun k => by norm_num [chip8_init_state]⟩
    · exact ⟨by norm_num [chip8_init_state], by norm_num [chip8_init_state],
        fun k => by norm_num [chip8_init_state]⟩
  | step rnd hr hcyc ih => exact stateBounds_cycle rnd ih hcyc
  | key i d hr ih => exact ⟨ih.1, ih.2.1, ih.2.2⟩
  | tick hr ih =>
    refine ⟨?_, ?_, ?_⟩ <;>
      (simp only [chip8_timers_decrement]; split_ifs <;> first
        | exact ih.1 | exact ih.2.1 | exact ih.2.2)
  | stop hr ih => exact ⟨ih.1, ih.2.1, ih.2.2⟩

/-- C4 counterexample: `pc < 4096` is not invariant.  With the ROM
`1F FE ...` (and `30 00` at offset 3582, i.e. address 0xFFE), the fresh
machine jumps to 0xFFE and the taken `SE V0, 0` there leaves the
reachable state `skipTopS2` with `pc = 4098 ≥ 4096`. -/
theorem reachable_pc_exceeds_4096 :
    Reach skipTopRom 3584 skipTopS2 ∧ skipTopS2.pc = 4098 ∧ ¬ skipTopS2.pc < 4096 := by
  have h1 : chip8_cycle 0 skipTopS0 = some skipTopS1 := rfl
  have h2 : chip8_cycle 0 skipTopS1 = some skipTopS2 := rfl
  exact ⟨Reach.step 0 (Reach.step 0 Reach.init h1) h2, by decide, by decide⟩

/-- C4 amended: for every reachable state, `sp ≤ 16` holds, and
`pc ≤ 4098` (rather than `pc < 4096`): a taken conditional skip
executed at `pc = 4094` — the largest address the fetch guard admits —
leaves `pc = 4098`, and the very next cycle then stops the machine
without executing. -/
theorem reachable_pc_le_4098_sp_le_16 (rom : Nat → Nat) (len : Nat) (s : Chip8)
    (h : Reach rom len s) : s.pc ≤ 4098 ∧ s.sp ≤ 16 :=
  ⟨(reach_bounds h).1, (reach_bounds h).2.1⟩

/-- C4 witness: the amended invariant at the freshly loaded state. -/
theorem reachable_pc_le_4098_sp_le_16_witness :
    (chip8_load_rom chip8_init_state skipTopRom 3584).pc ≤ 4098 ∧
    (chip8_load_rom chip8_init_state skipTopRom 3584).sp ≤ 16 :=
  reachable_pc_le_4098_sp_le_16 skipTopRom 3584 _ Reach.init
